import Mathlib

/-!
Shallow embedding of the position-tracking and backtest-simulation core of
the `thales` repository, together with theorems settling the specification
claims about it.

Modelling conventions:
* Prices, amounts and signal values are rationals (`ℚ`), standing for the
  Python floats; overflow/rounding of IEEE floats is out of scope.
* Timestamps are natural numbers standing for the (nonempty) formatted
  timestamp strings used by the code; the order on `Nat` models the
  lexicographic order of the fixed-width timestamp format.  A `none` in an
  `Option Nat` field models Python `None`.  Since every modelled timestamp
  string is nonempty, Python truthiness of a timestamp is `Option.isSome`.
* The YAML position files of one `PositionManager` directory are modelled as
  association lists keyed by uuid (file names are `[test__]{uuid}.yaml`, so
  the source's substring lookup `uuid in f` selects exactly the entries with
  that uuid, uuids being distinct random UUID4 strings).
* File writes are counted in `Store.writes` so that "saving" side effects of
  operations are observable in the model.
* Fallible Python code (assert / KeyError / absent files) is modelled with
  `Except String`.
-/

namespace Thales

/-- Metadata mapping of a position: string keys to scalar values
(`positions.py` stores JSON-serializable scalars; we model the scalar
payload as `ℚ`, which suffices for the claims). -/
abbrev Metadata := List (String × ℚ)

/-- `_Position._convert_metadata`: converts numpy/datetime values to plain
Python scalars.  On plain scalars (the only values in this model) the source
function returns its input unchanged, so the model is the identity. -/
def convert_metadata (m : Metadata) : Metadata := m

/-- Python dict merge `{**old, **new}` from `_Position.sell`: keys of `old`
keep their position but take the value from `new` when present; keys only in
`new` are appended. -/
def merge_metadata (old new : Metadata) : Metadata :=
  (old.map fun kv => (kv.1, ((new.find? fun kv2 => kv2.1 = kv.1).map Prod.snd).getD kv.2))
    ++ new.filter fun kv2 => ¬ (old.any fun kv => kv.1 = kv2.1)

/-- The two concrete position classes `Long` and `Short` (`ptype`). -/
inductive PType where
  | long
  | short
  deriving DecidableEq, Repr

/-- A single trade record: the `__slots__` of `_Position` in `positions.py`
plus the `ptype` distinguishing the `Long`/`Short` subclass. -/
structure Position where
  ptype : PType
  test : Bool
  uuid : String
  bot_name : Option String
  open_timestamp : Nat
  buy_price : ℚ
  amount : ℚ
  close_timestamp : Option Nat
  sell_price : Option ℚ
  directory : String
  metadata : Metadata
  deriving DecidableEq, Repr

namespace Position

/-- `_Position.is_open`: `(not self.close_timestamp) and
(not isinstance(self.sell_price, Number))`.  A set timestamp string is
truthy and a set sell price is a `Number`, so both tests are `isNone`. -/
def is_open (p : Position) : Bool :=
  p.close_timestamp.isNone && p.sell_price.isNone

/-- `_Position.sell_buy_ratio`: `self.sell_price / self.buy_price` when the
position is not open, `None` (implicit) when open.  The division is only
reached with a numeric `sell_price`, hence the `Option.map`. -/
def sellOverBuy (p : Position) : Option ℚ :=
  if p.is_open then none else p.sell_price.map fun sp => sp / p.buy_price

/-- `Long.delta` / `Short.delta`: `(amount * sell_buy_ratio) - amount` for a
`Long`, the negation of that quantity for a `Short`; `None` while open. -/
def delta (p : Position) : Option ℚ :=
  if p.is_open then none
  else (sellOverBuy p).map fun r =>
    match p.ptype with
    | .long => p.amount * r - p.amount
    | .short => -(p.amount * r - p.amount)

/-- `_Position.sell`: asserts the position is still open (else
`AssertionError("Position already closed.")`), then records the close
timestamp and price and merges the new metadata (new keys win).  The
source's second assert (`timestamp and isinstance(price, Number)`) always
passes in this model since modelled timestamps are nonempty strings and
prices are numbers. -/
def sell (p : Position) (timestamp : Nat) (price : ℚ) (meta : Metadata) :
    Except String Position :=
  if p.is_open then
    .ok { p with
            close_timestamp := some timestamp
            sell_price := some price
            metadata := merge_metadata p.metadata (convert_metadata meta) }
  else
    .error "Position already closed."

end Position

/-- One position directory of a `PositionManager`: YAML files in the `open`
and `closed` sub-directories, keyed by uuid, plus a count of the file writes
performed (so that saving side effects are observable). -/
structure Store where
  openDir : List (String × Position)
  closedDir : List (String × Position)
  writes : Nat
  deriving DecidableEq, Repr

/-- Replace the entry with the given key, or append it if absent
(writing a YAML file overwrites it, or creates it). -/
def setEntry (key : String) (p : Position) :
    List (String × Position) → List (String × Position)
  | [] => [(key, p)]
  | kv :: rest =>
      if kv.1 = key then (key, p) :: rest else kv :: setEntry key p rest

/-- Remove the entry with the given key (`os.remove`). -/
def eraseEntry (key : String) (l : List (String × Position)) :
    List (String × Position) :=
  l.filter fun kv => ¬ kv.1 = key

/-- `_Position.save`: an open position is written to `open/{name}.yaml`;
a closed one is written to `closed/{name}.yaml` and its `open` file is
removed if it exists.  Either way exactly one file write happens. -/
def save (p : Position) (s : Store) : Store :=
  if p.is_open then
    { s with openDir := setEntry p.uuid p s.openDir, writes := s.writes + 1 }
  else
    { s with closedDir := setEntry p.uuid p s.closedDir,
             openDir := eraseEntry p.uuid s.openDir,
             writes := s.writes + 1 }

/-- `_Position.__init__` (via the `Long`/`Short` constructors): set the
slots, convert the metadata, and unconditionally `save()`.  `uuid` is the
caller-supplied uuid or a fresh UUID4 (the caller of the model supplies it
either way); `bot_name` was validated at registration, on which
`validate_bot_name` is the identity.  Note: NO validation of `buy_price` or
`amount` is performed by the source constructor. -/
def mkPosition (ptype : PType) (open_timestamp : Nat) (buy_price amount : ℚ)
    (test : Bool) (bot_name : Option String) (close_timestamp : Option Nat)
    (sell_price : Option ℚ) (uuid : String) (directory : String)
    (meta : Metadata) (s : Store) : Position × Store :=
  let p : Position :=
    { ptype := ptype, test := test, uuid := uuid, bot_name := bot_name
      open_timestamp := open_timestamp, buy_price := buy_price
      amount := amount, close_timestamp := close_timestamp
      sell_price := sell_price, directory := directory
      metadata := convert_metadata meta }
  (p, save p s)

/-- Scanner for `position_name.split("__")[-1]`: walk the characters,
starting a new segment after each `__` separator, and return the final
segment (`acc` is the reversed current segment). -/
def lastSegmentAfter : List Char → List Char → List Char
  | [], acc => acc.reverse
  | '_' :: '_' :: rest, _ => lastSegmentAfter rest []
  | c :: rest, acc => lastSegmentAfter rest (c :: acc)

/-- `position_name.split("__")[-1]` of `PositionManager.get_position`. -/
def uuidFromName (n : String) : String :=
  String.mk (lastSegmentAfter n.data [])

/-- `PositionManager.get_position`: extract the uuid from the name, search
the `open` then the `closed` directory for YAML files matching the uuid,
and reconstruct the position through the `Long`/`Short` constructor with
`directory` overridden to the manager's directory — which `save()`s it
again.  Errors: multiple matches, or no match at all. -/
def getPosition (dirFp : String) (s : Store) (position_name : String) :
    Except String (Position × Store) :=
  let uuid := uuidFromName position_name
  let openMatches := s.openDir.filter fun kv => kv.1 = uuid
  let closedMatches := s.closedDir.filter fun kv => kv.1 = uuid
  match openMatches with
  | [kv] =>
      let q := kv.2
      .ok (mkPosition q.ptype q.open_timestamp q.buy_price q.amount q.test
        q.bot_name q.close_timestamp q.sell_price q.uuid dirFp q.metadata s)
  | [] =>
      match closedMatches with
      | [kv] =>
          let q := kv.2
          .ok (mkPosition q.ptype q.open_timestamp q.buy_price q.amount q.test
            q.bot_name q.close_timestamp q.sell_price q.uuid dirFp q.metadata s)
      | [] => .error "No position found for uuid"
      | _ => .error "Multiple positions found for uuid"
  | _ => .error "Multiple positions found for uuid"

/-- `PositionManager.open_new_position`: look the class up by
`ptype.lower()` in `dict(short=Short, long=Long)` (a `KeyError` for any
other string), then construct — and thereby persist — the position.
`fresh_uuid` stands for the UUID4 generated inside the constructor.  The
`ptype` argument is taken as the already lower-cased string (`.lower()` is
the identity on the lower-case keys the callers pass). -/
def openNewPosition (dirFp : String) (s : Store) (ptype : String)
    (open_timestamp : Nat) (buy_price amount : ℚ) (test : Bool)
    (bot_name : Option String) (fresh_uuid : String) (meta : Metadata) :
    Except String (Position × Store) :=
  let key := ptype
  if key = "short" then
    .ok (mkPosition .short open_timestamp buy_price amount test bot_name
      none none fresh_uuid dirFp meta s)
  else if key = "long" then
    .ok (mkPosition .long open_timestamp buy_price amount test bot_name
      none none fresh_uuid dirFp meta s)
  else
    .error "KeyError"

/-- `PositionManager.close_position`: fetch the position (which re-saves
it), then `sell` it (which saves the closed record).  The store component
of the result reflects all file writes performed up to the failure point,
mirroring the in-place mutation of the directory. -/
def closePosition (dirFp : String) (s : Store) (position_name : String)
    (timestamp : Nat) (price : ℚ) (meta : Metadata) :
    Except String Unit × Store :=
  match getPosition dirFp s position_name with
  | .error e => (.error e, s)
  | .ok (p, s') =>
      match p.sell timestamp price meta with
      | .error e => (.error e, s')
      | .ok p' => (.ok (), save p' s')

/-! ## The FoXyLady reference policy (`bots/FoXyLady/test/__init__.py`) -/

/-- One minute bar together with the daily baseline: the fields of
`data["minute"]` used by `TestTradeHandler.__call__` plus `data["67"]["mean"]`
and the bar's calendar date (`dt.date()`, modelled as a `Nat`). -/
structure BarData where
  mean : ℚ
  high : ℚ
  low : ℚ
  close : ℚ
  timestamp : Nat
  date : Nat
  deriving DecidableEq, Repr

/-- The four threshold parameters of `TestTradeHandler`. -/
structure Handler where
  entry_signal : ℚ
  sell_signal : ℚ
  abs_long_stop : ℚ
  abs_short_stop : ℚ
  deriving DecidableEq, Repr

/-- The data of one open position as seen by the handler (uuid, class and
entry price; the amount is the constant 100 and plays no role in the
decisions). -/
structure HPos where
  ptype : PType
  uuid : String
  buy_price : ℚ
  deriving DecidableEq, Repr

/-- Handler state: the open positions of the manager and the
`dates_traded` list. -/
structure HandlerState where
  positions : List HPos
  dates_traded : List Nat
  deriving DecidableEq, Repr

/-- Observable trading events of one handler invocation. -/
inductive Event where
  | opened (ptype : PType) (date : Nat) (buy_price : ℚ)
  | closed (uuid : String) (price : ℚ) (date : Nat)
  deriving DecidableEq, Repr

/-- `sorted(set(self.dates_traded) | {date})` on an already sorted,
duplicate-free list: insert the date at its place unless present. -/
def addDate (d : Nat) : List Nat → List Nat
  | [] => [d]
  | x :: xs => if d < x then d :: x :: xs else if d = x then x :: xs else x :: addDate d xs

/-- The close test of the handler for one open position: stop-loss or
take-profit, with the inequality directions of the source. -/
def closeDecision (h : Handler) (bar : BarData) (p : HPos) : Bool :=
  match p.ptype with
  | .long => (bar.low < p.buy_price - h.abs_long_stop) ||
      (bar.high > p.buy_price + h.sell_signal)
  | .short => (bar.high > p.buy_price + h.abs_short_stop) ||
      (bar.low > p.buy_price - h.sell_signal)

/-- `long_buy_decision` of the handler. -/
def longBuyDecision (h : Handler) (bar : BarData) : Bool :=
  (bar.high > bar.mean + h.entry_signal) && (bar.close < bar.mean + h.sell_signal)

/-- `short_buy_decision` of the handler. -/
def shortBuyDecision (h : Handler) (bar : BarData) : Bool :=
  (bar.low < bar.mean - h.entry_signal) && (bar.close > bar.mean - h.sell_signal)

/-- The `for p in open_positions` loop of `TestTradeHandler.__call__`:
each open position is closed (at the bar's close price) when its close test
fires, recording the trade date. Returns the surviving positions, the
updated `dates_traded` and the emitted events. -/
def closeLoop (h : Handler) (bar : BarData) :
    List HPos → List Nat → List HPos × List Nat × List Event
  | [], dates => ([], dates, [])
  | p :: rest, dates =>
      if closeDecision h bar p then
        let r := closeLoop h bar rest (addDate bar.date dates)
        (r.1, r.2.1, .closed p.uuid bar.close bar.date :: r.2.2)
      else
        let r := closeLoop h bar rest dates
        (p :: r.1, r.2.1, r.2.2)

/-- One invocation of `TestTradeHandler.__call__` on one bar: if positions
are open, run the close loop (and open nothing — `elif`); otherwise, if no
trade has happened on the bar's date, open at most one position, long
taking precedence over short, at the bar's close price.  `fresh_uuid`
stands for the UUID4 of a newly opened position. -/
def handlerStep (h : Handler) (fresh_uuid : String) (st : HandlerState)
    (bar : BarData) : HandlerState × List Event :=
  if st.positions.isEmpty then
    if bar.date ∈ st.dates_traded then (st, [])
    else if longBuyDecision h bar then
      ({ positions := [⟨.long, fresh_uuid, bar.close⟩],
         dates_traded := addDate bar.date st.dates_traded },
       [.opened .long bar.date bar.close])
    else if shortBuyDecision h bar then
      ({ positions := [⟨.short, fresh_uuid, bar.close⟩],
         dates_traded := addDate bar.date st.dates_traded },
       [.opened .short bar.date bar.close])
    else (st, [])
  else
    let r := closeLoop h bar st.positions st.dates_traded
    ({ positions := r.1, dates_traded := r.2.1 }, r.2.2)

/-- `TestBot.__call__`: drive the handler over the bar sequence,
accumulating the emitted events (the generated uuids play no role in the
decisions, so they are modelled by a constant). -/
def runHandler (h : Handler) (st : HandlerState) :
    List BarData → HandlerState × List Event
  | [] => (st, [])
  | bar :: rest =>
      let r := handlerStep h "" st bar
      let r' := runHandler h r.1 rest
      (r'.1, r.2 ++ r'.2)

/-- Is the event an opening event (of the given date)? -/
def isOpenedOn (d : Nat) : Event → Bool
  | .opened _ d' _ => d' = d
  | .closed _ _ _ => false

/-- Is the event an opening event at all? -/
def isOpened : Event → Bool
  | .opened _ _ _ => true
  | .closed _ _ _ => false

/-- Number of positions opened on date `d` in an event trace. -/
def countOpens (evs : List Event) (d : Nat) : Nat :=
  (evs.filter (isOpenedOn d)).length

/-! ## `TestDataset` (`data/test_dataset.py`) -/

/-- A datetime, modelled as `(year, offset-within-year)` so that the
year-keyed chunk loading of `TestDataset` can be expressed. -/
abbrev Dt := Nat × Nat

/-- Order on datetimes: lexicographic on `(year, offset)`. -/
def dtLe (a b : Dt) : Prop :=
  a.1 < b.1 ∨ (a.1 = b.1 ∧ a.2 ≤ b.2)

instance : DecidableRel dtLe := fun a b => by
  unfold dtLe; infer_instance

/-- One row of a yearly CSV of the dataset. -/
structure DBar where
  datetime : Dt
  dopen : ℚ
  dhigh : ℚ
  dlow : ℚ
  dclose : ℚ
  deriving DecidableEq, Repr

/-- A price column name of a `jump_to_condition` condition string. -/
inductive Col where
  | copen
  | chigh
  | clow
  | cclose
  deriving DecidableEq, Repr

/-- Value of a column in a bar. -/
def colVal (c : Col) (b : DBar) : ℚ :=
  match c with
  | .copen => b.dopen
  | .chigh => b.dhigh
  | .clow => b.dlow
  | .cclose => b.dclose

/-- A comparison operator of a condition string (`g`/`ge`/`l`/`le`). -/
inductive Op where
  | g
  | ge
  | l
  | le
  deriving DecidableEq, Repr

/-- Apply a comparison operator. -/
def opApply (o : Op) (x v : ℚ) : Bool :=
  match o with
  | .g => x > v
  | .ge => x ≥ v
  | .l => x < v
  | .le => x ≤ v

/-- One parsed condition `{column}_{operator}_{value}`. -/
structure Cond where
  col : Col
  op : Op
  value : ℚ
  deriving DecidableEq, Repr

/-- Does a bar satisfy one condition? -/
def matchesCond (b : DBar) (c : Cond) : Bool :=
  opApply c.op (colVal c.col b) c.value

/-- The `mask` of `jump_to_condition`: the OR of all conditions
(`mask = mask | eval(expr)` starting from `False`). -/
def matchesAny (conds : List Cond) (b : DBar) : Bool :=
  conds.any (matchesCond b)

/-- The yearly CSV files available on disk for one dataset: year to rows. -/
abbrev YearStore := List (Nat × List DBar)

/-- The largest year for which a CSV file exists (`0` when none do). -/
def maxYear (store : YearStore) : Nat :=
  store.foldr (fun yd acc => max yd.1 acc) 0

/-- `TestDataset.open_year_csv`: read the year's CSV, or raise
`FileNotFoundError("No data available for year: ...")`. -/
def openYearCsv (store : YearStore) (year : Nat) : Except String (List DBar) :=
  match store.lookup year with
  | some df => .ok df
  | none => .error "No data available for year"

/-- The in-memory state of a `TestDataset`: the loaded `df` and the last
loaded `year`. -/
structure Dataset where
  df : List DBar
  year : Nat
  deriving DecidableEq, Repr

/-- `current_df.append(df).drop_duplicates(subset=["datetime"])`: keep the
first-seen row per datetime (the pandas default). -/
def dropDupFirstBy : List DBar → List Dt → List DBar
  | [], _ => []
  | b :: rest, seen =>
      if b.datetime ∈ seen then dropDupFirstBy rest seen
      else b :: dropDupFirstBy rest (b.datetime :: seen)

/-- `set_index(["datetime"]).sort_index()`: stable sort by datetime. -/
def sortByDt (l : List DBar) : List DBar :=
  List.insertionSort (fun a b => dtLe a.datetime b.datetime) l

/-- The `df`/`year` update of `TestDataset.load_year` once the CSV has been
read: append, de-duplicate keeping the first, and sort by datetime. -/
def appendYear (ds : Dataset) (year : Nat) (df : List DBar) : Dataset :=
  { df := sortByDt (dropDupFirstBy (ds.df ++ df) []), year := year }

/-- `TestDataset.load_year`: read a year's CSV (which may raise) and merge
it into `df`. -/
def loadYear (store : YearStore) (ds : Dataset) (year : Nat) :
    Except String Dataset :=
  (openYearCsv store year).map (appendYear ds year)

/-- `TestDataset.jump_to_date`: ensure the datetime's year is loaded, filter
`df` to datetimes `≥ dt`, and if that leaves nothing load the following
year and filter again. -/
def jumpToDate (store : YearStore) (ds : Dataset) (dt : Dt) :
    Except String Dataset :=
  match (if dt.1 ≠ ds.year then loadYear store ds dt.1 else .ok ds) with
  | .error e => .error e
  | .ok ds₁ =>
      let ds₂ : Dataset := { ds₁ with df := ds₁.df.filter fun b => dtLe dt b.datetime }
      if ds₂.df.isEmpty then
        match loadYear store ds₂ (dt.1 + 1) with
        | .error e => .error e
        | .ok ds₃ => .ok { ds₃ with df := ds₃.df.filter fun b => dtLe dt b.datetime }
      else .ok ds₂

/-- `TestDataset.jump_to_condition`: filter `df` by the OR-mask of the
conditions; while no row matches, `load_year()` the next year (which raises
`FileNotFoundError` once the yearly files are exhausted — the loop's only
exit without a match); on a match, `jump_to_date` to the first matching
row.  Termination: each iteration increments `year`, and a year beyond
every file on disk fails to load. -/
def jumpToCondition (store : YearStore) (conds : List Cond) (ds : Dataset) :
    Except String Dataset :=
  match ds.df.filter (matchesAny conds) with
  | r :: _ => jumpToDate store ds r.datetime
  | [] =>
      match hl : openYearCsv store (ds.year + 1) with
      | .error e => .error e
      | .ok df => jumpToCondition store conds (appendYear ds (ds.year + 1) df)
termination_by maxYear store + 1 - ds.year
decreasing_by
  have hmem : ∀ (l : YearStore) (y : Nat) (d : List DBar),
      l.lookup y = some d → y ≤ maxYear l := by
    intro l
    induction l with
    | nil => intro y d hyd; simp [List.lookup] at hyd
    | cons hd tl ih =>
        intro y d hyd
        rw [List.lookup] at hyd
        by_cases hb : y = hd.1
        · subst hb
          simp only [maxYear, List.foldr]
          exact Nat.le_max_left _ _
        · have hbeq : (y == hd.1) = false := by simp [hb]
          rw [hbeq] at hyd
          have := ih y d hyd
          simp only [maxYear, List.foldr] at this ⊢
          omega
  have hle : ds.year + 1 ≤ maxYear store := by
    unfold openYearCsv at hl
    rcases hlk : store.lookup (ds.year + 1) with _ | df'
    · rw [hlk] at hl; exact absurd hl (by simp)
    · exact hmem store (ds.year + 1) df' hlk
  simp only [appendYear]
  omega

/-- Modelled from the spec: `find_first_matching(predicate)` with the
configurable maximum-lookahead bound the spec requires of the operation
(the source has no such parameter): scan forward over at most `lookahead`
bars of the remaining logical series, returning the first satisfying bar,
and fail with `NoDataAvailable` when none of them satisfies the
predicate. -/
def findFirstMatchingSpec (bars : List DBar) (pred : DBar → Bool)
    (lookahead : Nat) : Except String DBar :=
  match (bars.take lookahead).find? pred with
  | some b => .ok b
  | none => .error "NoDataAvailable"

/-! ## `CSVLoader.dedupe_by_request_time` (`data/csv_loader.py`) -/

/-- One observation row as seen by `dedupe_by_request_time`: the `datetime`
key, the optional `request_time`, the `volume` used in the sort key, and the
remaining price payload represented by `close`.  Datetimes and request
times are `Nat`s standing for the formatted timestamp strings. -/
structure Row where
  datetime : Nat
  request_time : Option Nat
  volume : ℚ
  close : ℚ
  deriving DecidableEq, Repr

/-- The source's `default_request_time = "2020_01_01 00;00;00"` filled into
missing `request_time` cells, as a point on the modelled time axis. -/
def defaultRequestTime : Nat := 1577836800

/-- `df["request_time"].fillna(default_request_time)` applied to one row
(also covers the column-creation case when the column is absent). -/
def fillRequestTime (r : Row) : Row :=
  { r with request_time := some (r.request_time.getD defaultRequestTime) }

/-- The lexicographic sort key `["datetime", "request_time", "volume"]`. -/
def rowKey (r : Row) : Nat × Nat × ℚ :=
  (r.datetime, r.request_time.getD defaultRequestTime, r.volume)

/-- Row order used by `sort_values(by=["datetime", "request_time",
"volume"], ascending=True)`. -/
def keyLe (a b : Row) : Prop :=
  a.datetime < b.datetime ∨
    (a.datetime = b.datetime ∧
      (a.request_time.getD defaultRequestTime < b.request_time.getD defaultRequestTime ∨
        (a.request_time.getD defaultRequestTime = b.request_time.getD defaultRequestTime ∧
          a.volume ≤ b.volume)))

instance : DecidableRel keyLe := fun a b => by
  unfold keyLe; infer_instance

instance : IsTotal Row keyLe where
  total a b := by
    unfold keyLe
    rcases Nat.lt_trichotomy a.datetime b.datetime with h | h | h
    · exact Or.inl (Or.inl h)
    · rcases Nat.lt_trichotomy (a.request_time.getD defaultRequestTime)
        (b.request_time.getD defaultRequestTime) with h2 | h2 | h2
      · exact Or.inl (Or.inr ⟨h, Or.inl h2⟩)
      · rcases le_total a.volume b.volume with h3 | h3
        · exact Or.inl (Or.inr ⟨h, Or.inr ⟨h2, h3⟩⟩)
        · exact Or.inr (Or.inr ⟨h.symm, Or.inr ⟨h2.symm, h3⟩⟩)
      · exact Or.inr (Or.inr ⟨h.symm, Or.inl h2⟩)
    · exact Or.inr (Or.inl h)

instance : IsTrans Row keyLe where
  trans a b c hab hbc := by
    unfold keyLe at hab hbc ⊢
    rcases hab with h1 | ⟨h1, h1'⟩ <;> rcases hbc with h2 | ⟨h2, h2'⟩
    · exact Or.inl (h1.trans h2)
    · exact Or.inl (h2 ▸ h1)
    · exact Or.inl (h1 ▸ h2)
    · refine Or.inr ⟨h1.trans h2, ?_⟩
      rcases h1' with h3 | ⟨h3, h3'⟩ <;> rcases h2' with h4 | ⟨h4, h4'⟩
      · exact Or.inl (h3.trans h4)
      · exact Or.inl (h4 ▸ h3)
      · exact Or.inl (h3 ▸ h4)
      · exact Or.inr ⟨h3.trans h4, h3'.trans h4'⟩

/-- The stable ascending sort of the rows by `(datetime, request_time,
volume)` (pandas lexsort is stable, as is insertion sort). -/
def sortRows (l : List Row) : List Row :=
  List.insertionSort keyLe l

/-- `drop_duplicates(subset=["datetime"], keep="last")` on a frame sorted
by datetime: of each run of equal datetimes, keep the last row. -/
def dropDupKeepLast : List Row → List Row
  | [] => []
  | [x] => [x]
  | x :: y :: rest =>
      if x.datetime = y.datetime then dropDupKeepLast (y :: rest)
      else x :: dropDupKeepLast (y :: rest)

/-- `CSVLoader.dedupe_by_request_time`: fill missing request times with the
default, sort by `(datetime, request_time, volume)` and keep the last row
of each datetime. -/
def dedupe_by_request_time (rows : List Row) : List Row :=
  dropDupKeepLast (sortRows (rows.map fillRequestTime))

/-! ## `PositionManager.construct_dataframe` (C7) -/

/-- The running `delta_cumsum` column: pandas `cumsum` leaves `NaN` cells
in place and accumulates over the present values. -/
def cumsumDelta : List (Option ℚ) → ℚ → List (Option ℚ)
  | [], _ => []
  | none :: rest, acc => none :: cumsumDelta rest acc
  | some d :: rest, acc => some (acc + d) :: cumsumDelta rest (acc + d)

/-- `PositionManager.construct_dataframe`: build a frame from the repr of
every stored position visible to the manager (the `test_` name filter of
`_list_positions` corresponds to the `test` flag).  With zero positions
`pd.DataFrame([])` has no columns at all, so the first column access
`df["open_timestamp"]` raises a `KeyError`; otherwise the rows are sorted
by open timestamp and the cumulative sum of `delta` is appended. -/
def construct_dataframe (test : Bool) (s : Store) :
    Except String (List Position × List (Option ℚ)) :=
  let positions :=
    ((s.openDir ++ s.closedDir).map Prod.snd).filter fun p => p.test = test
  if positions.isEmpty then .error "KeyError"
  else
    let sorted := List.insertionSort
      (fun p q : Position => p.open_timestamp ≤ q.open_timestamp) positions
    .ok (sorted, cumsumDelta (sorted.map Position.delta) 0)

/-! ## Concrete instances used by the theorems below -/

/-- An open long position (opened at time 5, price 2, amount 100). -/
def exOpenLong : Position :=
  ⟨.long, true, "u1", none, 5, 2, 100, none, none, "d", []⟩

/-- A closed short position: opened at price 2, closed at price 1. -/
def exShortClosed : Position :=
  ⟨.short, true, "u2", none, 1, 2, 100, some 2, some 1, "d", []⟩

/-- A store holding only the closed short position. -/
def exClosedStore : Store := ⟨[], [("u2", exShortClosed)], 0⟩

/-- The position produced by an open call with negative price and size. -/
def badOpenPos : Position :=
  ⟨.long, true, "u", none, 1, -2, -1, none, none, "d", []⟩

/-- A long position opened at time 5. -/
def posOpenedAt5 : Position :=
  ⟨.long, true, "u", none, 5, 10, 1, none, none, "d", []⟩

/-- The store right after opening `posOpenedAt5`. -/
def storeAfterOpen : Store := ⟨[("u", posOpenedAt5)], [], 1⟩

/-- `posOpenedAt5` closed at time 3 — before its open time. -/
def posClosedAt3 : Position :=
  ⟨.long, true, "u", none, 5, 10, 1, some 3, some 11, "d", []⟩

/-- Handler with `entry_signal 1`, `sell_signal 2`, both stops 1. -/
def exHandler : Handler := ⟨1, 2, 1, 1⟩

/-- An open short position of the handler, entered at price 100. -/
def exShortHPos : HPos := ⟨.short, "s1", 100⟩

/-- A bar whose high triggers the short stop of `exHandler` at entry
price 100 (`102 > 100 + 1`). -/
def exBarShortStop : BarData := ⟨100, 102, 99, 101, 0, 7⟩

/-- A bar triggering the long entry of `exHandler` against a baseline mean
of 100 (`102 > 100 + 1` and `100 < 100 + 2`). -/
def exBarLongEntry : BarData := ⟨100, 102, 99, 100, 0, 7⟩

/-- Year-2000 bar matching no interesting condition (all prices 1). -/
def ex8Bar1 : DBar := ⟨(2000, 1), 1, 1, 1, 1⟩

/-- Year-2001 bar with close 5. -/
def ex8Bar2 : DBar := ⟨(2001, 1), 5, 5, 5, 5⟩

/-- Two yearly CSV files: 2000 and 2001. -/
def ex8Store : YearStore := [(2000, [ex8Bar1]), (2001, [ex8Bar2])]

/-- The condition `close_g_3`, satisfied only by `ex8Bar2`. -/
def ex8Conds : List Cond := [⟨.cclose, .g, 3⟩]

/-- Dataset with the year 2000 loaded. -/
def ex8Ds : Dataset := ⟨[ex8Bar1], 2000⟩

/-- A store whose single year has no bar matching `ex8Conds`. -/
def ex8NoMatchStore : YearStore := [(2000, [ex8Bar1])]

/-- Observation without request time, payload 10. -/
def exRowA : Row := ⟨1, none, 5, 10⟩

/-- Second observation for the same timestamp, same (absent) request time
and volume, payload 20. -/
def exRowB : Row := ⟨1, none, 5, 20⟩

/-- Rows with pairwise distinct `(datetime, request_time, volume)` keys. -/
def exRowsUnique : List Row := [⟨1, some 2, 5, 10⟩, ⟨1, some 3, 5, 20⟩, ⟨2, some 1, 4, 7⟩]

/-- The same rows loaded in a different order. -/
def exRowsUniquePerm : List Row := [⟨2, some 1, 4, 7⟩, ⟨1, some 3, 5, 20⟩, ⟨1, some 2, 5, 10⟩]

/-! ## Helper lemmas -/

theorem filter_single_setEntry (u : String) (p : Position) :
    ∀ l : List (String × Position),
      l.filter (fun kv => kv.1 = u) = [(u, p)] → setEntry u p l = l := by
  intro l
  induction l with
  | nil => intro h; simp at h
  | cons kv rest ih =>
      intro h
      by_cases hk : kv.1 = u
      · rw [List.filter_cons_of_pos (by simpa using hk)] at h
        obtain ⟨h1, h2⟩ := List.cons.inj h
        unfold setEntry
        rw [if_pos hk, h1]
      · rw [List.filter_cons_of_neg (by simpa using hk)] at h
        unfold setEntry
        rw [if_neg hk, ih h]

theorem filter_nil_eraseEntry (u : String) (l : List (String × Position))
    (h : l.filter (fun kv => kv.1 = u) = []) : eraseEntry u l = l := by
  unfold eraseEntry
  rw [List.filter_eq_nil_iff] at h
  refine List.filter_eq_self.mpr fun kv hkv => ?_
  simpa using h kv hkv

/-! ## C1 -/

/-- C1 (counterexample): the claim says a closed Short's realized return
ratio is the inverse-relative ratio (`open_price / close_price`); on the
closed short `exShortClosed` (opened at 2, closed at 1) the code's
`sell_buy_ratio` is `1/2 = close/open`, not the claimed `2/1`. -/
theorem short_return_is_not_inverse :
    Position.sellOverBuy exShortClosed = some (1 / 2) ∧
    ¬ Position.sellOverBuy exShortClosed = some (2 / 1) := by
  have h1 : Position.sellOverBuy exShortClosed = some (1 / 2) := rfl
  refine ⟨h1, fun hcon => ?_⟩
  rw [h1] at hcon
  simp only [Option.some.injEq] at hcon
  norm_num at hcon

/-- C1 (amended): while a Position is open, `sell_buy_ratio` and `delta`
are `None`; after closing at price `cp`, the realized ratio is
`cp / open_price` for Long AND Short alike, `delta` is
`amount * ratio - amount` for a Long and the negation of that quantity for
a Short. -/
theorem realized_return_and_delta_formulas (p : Position) (t : Nat) (cp : ℚ)
    (m : Metadata) (hopen : p.is_open = true) :
    Position.sellOverBuy p = none ∧ p.delta = none ∧
    ∃ p', p.sell t cp m = .ok p' ∧
      Position.sellOverBuy p' = some (cp / p.buy_price) ∧
      p'.delta = some (if p.ptype = .long
        then p.amount * (cp / p.buy_price) - p.amount
        else -(p.amount * (cp / p.buy_price) - p.amount)) := by
  refine ⟨by simp [Position.sellOverBuy, hopen], by simp [Position.delta, hopen], ?_⟩
  refine ⟨{ p with
      close_timestamp := some t
      sell_price := some cp
      metadata := merge_metadata p.metadata (convert_metadata m) },
    by simp [Position.sell, hopen], ?_, ?_⟩
  · simp [Position.sellOverBuy, Position.is_open]
  · cases hpt : p.ptype <;>
      simp [Position.delta, Position.sellOverBuy, Position.is_open, hpt]

/-- Witness for `realized_return_and_delta_formulas` at the concrete open
long position `exOpenLong`, closed at time 9 and price 4. -/
theorem realized_return_and_delta_formulas_witness :
    Position.sellOverBuy exOpenLong = none ∧ exOpenLong.delta = none ∧
    ∃ p', exOpenLong.sell 9 4 [] = .ok p' ∧
      Position.sellOverBuy p' = some (4 / exOpenLong.buy_price) ∧
      p'.delta = some (if exOpenLong.ptype = .long
        then exOpenLong.amount * (4 / exOpenLong.buy_price) - exOpenLong.amount
        else -(exOpenLong.amount * (4 / exOpenLong.buy_price) - exOpenLong.amount)) :=
  realized_return_and_delta_formulas exOpenLong 9 4 [] rfl

/-! ## C2 -/

/-- C2 (confirmed): closing an already-closed Position always fails with
the `PositionAlreadyClosed` condition (`AssertionError("Position already
closed.")`), and the failed second close leaves the first close's recorded
values — the whole open and closed directories — unchanged (only the
re-save performed by `get_position` touches the file, rewriting the same
values). -/
theorem close_position_twice_fails (dirFp : String) (s : Store) (n : String)
    (t : Nat) (pr : ℚ) (m : Metadata) (p : Position)
    (hn : uuidFromName n = p.uuid)
    (hopen : s.openDir.filter (fun kv => kv.1 = p.uuid) = [])
    (hclosed : s.closedDir.filter (fun kv => kv.1 = p.uuid) = [(p.uuid, p)])
    (hdir : p.directory = dirFp)
    (hcl : p.is_open = false) :
    closePosition dirFp s n t pr m =
      (.error "Position already closed.", { s with writes := s.writes + 1 }) := by
  subst hdir
  have hget : getPosition p.directory s n = .ok (p, save p s) := by
    simp only [getPosition]
    rw [hn, hopen, hclosed]
    rfl
  have hsave : save p s = { s with writes := s.writes + 1 } := by
    unfold save
    rw [hcl]
    simp only [Bool.false_eq_true, if_false]
    rw [filter_single_setEntry _ _ _ hclosed, filter_nil_eraseEntry _ _ hopen]
  have hsell : p.sell t pr m = .error "Position already closed." := by
    simp [Position.sell, hcl]
  simp only [closePosition, hget, hsell]
  rw [hsave]

/-- Witness for `close_position_twice_fails` on the concrete store holding
only the closed short position. -/
theorem close_position_twice_fails_witness :
    closePosition "d" exClosedStore "test__u2" 9 9 [] =
      (.error "Position already closed.",
       { exClosedStore with writes := exClosedStore.writes + 1 }) :=
  close_position_twice_fails "d" exClosedStore "test__u2" 9 9 [] exShortClosed
    rfl rfl rfl rfl rfl

/-! ## C3 -/

/-- C3 (counterexample): the claim says opening with `size <= 0` or
`open_price <= 0` fails fast and persists nothing; the code performs no
such validation — opening with price `-2` and size `-1` succeeds and the
record is persisted in the open directory. -/
theorem open_nonpositive_accepted :
    openNewPosition "d" ⟨[], [], 0⟩ "long" 1 (-2) (-1) true none "u" [] =
      .ok (badOpenPos, ⟨[("u", badOpenPos)], [], 1⟩) ∧
    badOpenPos.buy_price ≤ 0 ∧ badOpenPos.amount ≤ 0 :=
  ⟨rfl, by norm_num [badOpenPos], by norm_num [badOpenPos]⟩

/-- C3 (amended): `open_new_position` performs no validation of price or
size: for every price and size — non-positive included — the open succeeds
and the new record is persisted into the open directory. -/
theorem open_new_position_no_validation (dirFp : String) (s : Store)
    (pt : String) (ts : Nat) (buy amount : ℚ) (test : Bool)
    (bn : Option String) (u : String) (m : Metadata)
    (hpt : pt = "long" ∨ pt = "short") :
    ∃ p s', openNewPosition dirFp s pt ts buy amount test bn u m = .ok (p, s') ∧
      p.buy_price = buy ∧ p.amount = amount ∧ p.is_open = true ∧
      s'.openDir = setEntry u p s.openDir ∧ s'.closedDir = s.closedDir ∧
      s'.writes = s.writes + 1 := by
  rcases hpt with h | h <;> subst h
  · exact ⟨_, _, rfl, rfl, rfl, rfl, rfl, rfl, rfl⟩
  · exact ⟨_, _, rfl, rfl, rfl, rfl, rfl, rfl, rfl⟩

/-- Witness for `open_new_position_no_validation`: a short opened with
price `-3` and size `0` into the empty store. -/
theorem open_new_position_no_validation_witness :
    ∃ p s', openNewPosition "d" ⟨[], [], 0⟩ "short" 1 (-3) 0 true none "u" [] =
        .ok (p, s') ∧
      p.buy_price = -3 ∧ p.amount = 0 ∧ p.is_open = true ∧
      s'.openDir = setEntry "u" p (⟨[], [], 0⟩ : Store).openDir ∧
      s'.closedDir = (⟨[], [], 0⟩ : Store).closedDir ∧
      s'.writes = (⟨[], [], 0⟩ : Store).writes + 1 :=
  open_new_position_no_validation "d" ⟨[], [], 0⟩ "short" 1 (-3) 0 true none "u" []
    (Or.inr rfl)

/-! ## C4 -/

/-- C4 (counterexample): the claim says a close with `close_time` not
strictly after `open_time` is rejected; the code accepts it — a position
opened at time 5 is successfully closed at time 3 and stored so. -/
theorem close_time_before_open_accepted :
    openNewPosition "d" ⟨[], [], 0⟩ "long" 5 10 1 true none "u" [] =
      .ok (posOpenedAt5, storeAfterOpen) ∧
    closePosition "d" storeAfterOpen "u" 3 11 [] =
      (.ok (), ⟨[], [("u", posClosedAt3)], 3⟩) ∧
    posClosedAt3.is_open = false ∧ posClosedAt3.close_timestamp = some 3 ∧
    posClosedAt3.open_timestamp = 5 ∧ ¬ posClosedAt3.open_timestamp < 3 :=
  ⟨rfl, rfl, rfl, rfl, rfl, by decide⟩

/-- C4 (amended): `sell` validates nothing about the timestamp: for every
open position and every close timestamp `t` — also one at or before the
open time — the close succeeds and records `close_timestamp = t`, so the
`close_time > open_time` invariant is not enforced by the code. -/
theorem sell_accepts_any_timestamp (p : Position) (t : Nat) (pr : ℚ)
    (m : Metadata) (hopen : p.is_open = true) :
    p.sell t pr m = .ok { p with
      close_timestamp := some t
      sell_price := some pr
      metadata := merge_metadata p.metadata (convert_metadata m) } := by
  simp [Position.sell, hopen]

/-- Witness for `sell_accepts_any_timestamp`: `exOpenLong` (opened at 5)
closed at the earlier time 3. -/
theorem sell_accepts_any_timestamp_witness :
    exOpenLong.sell 3 7 [] =
      .ok { exOpenLong with
        close_timestamp := some 3
        sell_price := some 7
        metadata := merge_metadata exOpenLong.metadata (convert_metadata []) } :=
  sell_accepts_any_timestamp exOpenLong 3 7 [] rfl

/-! ## C10 -/

/-- C10 (confirmed): `get_position` reconstructs the record through the
`Long`/`Short` constructor, which unconditionally `save()`s before
returning — so a get performs a file write (the store's write counter
advances) even though every directory entry keeps exactly the same values:
get is not read-only, but it does not change any recorded field. -/
theorem get_position_saves_but_preserves_record (dirFp : String) (s : Store)
    (n : String) (p : Position)
    (hn : uuidFromName n = p.uuid)
    (hdir : p.directory = dirFp)
    (hcase : (s.openDir.filter (fun kv => kv.1 = p.uuid) = [(p.uuid, p)] ∧
        p.is_open = true) ∨
      (s.openDir.filter (fun kv => kv.1 = p.uuid) = [] ∧
        s.closedDir.filter (fun kv => kv.1 = p.uuid) = [(p.uuid, p)] ∧
        p.is_open = false)) :
    getPosition dirFp s n = .ok (p, { s with writes := s.writes + 1 }) := by
  subst hdir
  rcases hcase with ⟨hopen, hcl⟩ | ⟨hopen, hclosed, hcl⟩
  · have hsave : save p s = { s with writes := s.writes + 1 } := by
      unfold save
      rw [hcl]
      simp only [if_true]
      rw [filter_single_setEntry _ _ _ hopen]
    simp only [getPosition]
    rw [hn, hopen]
    show Except.ok (p, save p s) = _
    rw [hsave]
  · have hsave : save p s = { s with writes := s.writes + 1 } := by
      unfold save
      rw [hcl]
      simp only [Bool.false_eq_true, if_false]
      rw [filter_single_setEntry _ _ _ hclosed, filter_nil_eraseEntry _ _ hopen]
    simp only [getPosition]
    rw [hn, hopen, hclosed]
    show Except.ok (p, save p s) = _
    rw [hsave]

/-- Witness for `get_position_saves_but_preserves_record`: fetching the
closed position `test__u2` from the concrete store performs one write and
returns the unchanged record. -/
theorem get_position_saves_but_preserves_record_witness :
    getPosition "d" exClosedStore "test__u2" =
      .ok (exShortClosed, { exClosedStore with writes := exClosedStore.writes + 1 }) :=
  get_position_saves_but_preserves_record "d" exClosedStore "test__u2" exShortClosed
    rfl rfl (Or.inr ⟨rfl, rfl, rfl⟩)

/-! ## C5 -/

/-- C5 (confirmed): while a single Short position is open, the handler
closes it on a bar if and only if `bar.high > open_price + abs_short_stop`
(stop) or `bar.low > open_price - sell_signal` (target), and then it is
closed at the bar's close price; otherwise nothing happens. -/
theorem short_close_iff_stop_or_target (h : Handler) (u : String)
    (st : HandlerState) (bar : BarData) (p : HPos)
    (hpos : st.positions = [p]) (hty : p.ptype = .short) :
    if bar.high > p.buy_price + h.abs_short_stop ∨
        bar.low > p.buy_price - h.sell_signal
    then (handlerStep h u st bar).2 = [.closed p.uuid bar.close bar.date] ∧
         (handlerStep h u st bar).1.positions = [] ∧
         (handlerStep h u st bar).1.dates_traded = addDate bar.date st.dates_traded
    else (handlerStep h u st bar).2 = [] ∧ (handlerStep h u st bar).1 = st := by
  obtain ⟨pos, dt⟩ := st
  replace hpos : pos = [p] := hpos
  subst hpos
  by_cases hc : bar.high > p.buy_price + h.abs_short_stop ∨
      bar.low > p.buy_price - h.sell_signal
  · rw [if_pos hc]
    have hcd : closeDecision h bar p = true := by
      simp only [closeDecision, hty, Bool.or_eq_true, decide_eq_true_eq]
      exact hc
    refine ⟨?_, ?_, ?_⟩ <;> simp [handlerStep, closeLoop, hcd]
  · rw [if_neg hc]
    have h1 : ¬ bar.high > p.buy_price + h.abs_short_stop := fun hx => hc (Or.inl hx)
    have h2 : ¬ bar.low > p.buy_price - h.sell_signal := fun hx => hc (Or.inr hx)
    have hcd : closeDecision h bar p = false := by
      simp only [closeDecision, hty, Bool.or_eq_false_iff]
      exact ⟨decide_eq_false h1, decide_eq_false h2⟩
    refine ⟨?_, ?_⟩ <;> simp [handlerStep, closeLoop, hcd]

/-- Witness for `short_close_iff_stop_or_target`: the short entered at 100
meets the stop condition on `exBarShortStop` (`102 > 100 + 1`) and is
closed at that bar's close price 101. -/
theorem short_close_iff_stop_or_target_witness :
    if exBarShortStop.high > exShortHPos.buy_price + exHandler.abs_short_stop ∨
        exBarShortStop.low > exShortHPos.buy_price - exHandler.sell_signal
    then (handlerStep exHandler "x" ⟨[exShortHPos], []⟩ exBarShortStop).2 =
           [.closed exShortHPos.uuid exBarShortStop.close exBarShortStop.date] ∧
         (handlerStep exHandler "x" ⟨[exShortHPos], []⟩ exBarShortStop).1.positions = [] ∧
         (handlerStep exHandler "x" ⟨[exShortHPos], []⟩ exBarShortStop).1.dates_traded =
           addDate exBarShortStop.date (⟨[exShortHPos], []⟩ : HandlerState).dates_traded
    else (handlerStep exHandler "x" ⟨[exShortHPos], []⟩ exBarShortStop).2 = [] ∧
         (handlerStep exHandler "x" ⟨[exShortHPos], []⟩ exBarShortStop).1 =
           ⟨[exShortHPos], []⟩ :=
  short_close_iff_stop_or_target exHandler "x" ⟨[exShortHPos], []⟩ exBarShortStop
    exShortHPos rfl rfl

/-! ## C7 -/

/-- C7 (code_bug): the claim — and the spec — require that summarising a
scope with zero closed positions yields `trade_count = 0` without raising;
`construct_dataframe` on a manager with zero positions instead raises: the
empty `pd.DataFrame([])` has no columns, so `df["open_timestamp"]` is a
`KeyError`. -/
theorem construct_dataframe_empty_store_raises :
    construct_dataframe true ⟨[], [], 0⟩ = .error "KeyError" := rfl

/-! ## C6: lemmas on the handler's event traces -/

theorem mem_addDate_self (d : Nat) : ∀ l : List Nat, d ∈ addDate d l := by
  intro l
  induction l with
  | nil => simp [addDate]
  | cons x xs ih =>
      unfold addDate
      by_cases h1 : d < x
      · rw [if_pos h1]; exact List.mem_cons_self _ _
      · rw [if_neg h1]
        by_cases h2 : d = x
        · rw [if_pos h2]; exact h2 ▸ List.mem_cons_self _ _
        · rw [if_neg h2]; exact List.mem_cons_of_mem _ ih

theorem mem_addDate_of_mem (d x : Nat) :
    ∀ l : List Nat, x ∈ l → x ∈ addDate d l := by
  intro l
  induction l with
  | nil => intro h; simp at h
  | cons y ys ih =>
      intro hx
      unfold addDate
      by_cases h1 : d < y
      · rw [if_pos h1]; exact List.mem_cons_of_mem _ hx
      · rw [if_neg h1]
        by_cases h2 : d = y
        · rw [if_pos h2]; exact hx
        · rw [if_neg h2]
          rcases List.mem_cons.mp hx with h | h
          · exact h ▸ List.mem_cons_self _ _
          · exact List.mem_cons_of_mem _ (ih h)

theorem closeLoop_events_not_opened (h : Handler) (bar : BarData) :
    ∀ (ps : List HPos) (dates : List Nat) (e : Event),
      e ∈ (closeLoop h bar ps dates).2.2 → isOpened e = false := by
  intro ps
  induction ps with
  | nil => intro dates e he; simp [closeLoop] at he
  | cons p rest ih =>
      intro dates e he
      unfold closeLoop at he
      by_cases hc : closeDecision h bar p = true
      · rw [if_pos hc] at he
        simp only [List.mem_cons] at he
        rcases he with h1 | h1
        · subst h1; rfl
        · exact ih _ _ h1
      · rw [if_neg hc] at he
        exact ih _ _ he

theorem closeLoop_dates_mono (h : Handler) (bar : BarData) :
    ∀ (ps : List HPos) (dates : List Nat) (x : Nat),
      x ∈ dates → x ∈ (closeLoop h bar ps dates).2.1 := by
  intro ps
  induction ps with
  | nil => intro dates x hx; simpa [closeLoop] using hx
  | cons p rest ih =>
      intro dates x hx
      unfold closeLoop
      by_cases hc : closeDecision h bar p = true
      · rw [if_pos hc]
        exact ih _ _ (mem_addDate_of_mem _ _ _ hx)
      · rw [if_neg hc]
        exact ih _ _ hx

theorem countOpens_append (a b : List Event) (d : Nat) :
    countOpens (a ++ b) d = countOpens a d + countOpens b d := by
  simp [countOpens, List.filter_append]

theorem isOpenedOn_false_of_not_opened (d : Nat) (e : Event)
    (h : isOpened e = false) : isOpenedOn d e = false := by
  cases e with
  | opened pt dd pr => simp [isOpened] at h
  | closed uu pr dd => rfl

theorem countOpens_closeLoop (h : Handler) (bar : BarData) (ps : List HPos)
    (dates : List Nat) (d : Nat) :
    countOpens (closeLoop h bar ps dates).2.2 d = 0 := by
  unfold countOpens
  rw [List.length_eq_zero, List.filter_eq_nil_iff]
  intro e he
  rw [isOpenedOn_false_of_not_opened d e (closeLoop_events_not_opened h bar ps dates e he)]
  simp

/-- Case analysis of one handler invocation: either every emitted event is
a close, or exactly one position was opened — and then the open list was
empty, the bar's date untraded, an entry condition held, and the date got
recorded. -/
theorem handlerStep_events_cases (h : Handler) (u : String)
    (st : HandlerState) (bar : BarData) :
    (∀ e ∈ (handlerStep h u st bar).2, isOpened e = false) ∨
    (((handlerStep h u st bar).2 = [.opened .long bar.date bar.close] ∨
      (handlerStep h u st bar).2 = [.opened .short bar.date bar.close]) ∧
      st.positions = [] ∧ bar.date ∉ st.dates_traded ∧
      (handlerStep h u st bar).1.dates_traded = addDate bar.date st.dates_traded ∧
      (longBuyDecision h bar = true ∨ shortBuyDecision h bar = true)) := by
  cases hps : st.positions with
  | cons q qs =>
      left
      intro e he
      simp only [handlerStep, hps, List.isEmpty_cons, Bool.false_eq_true, if_false] at he
      exact closeLoop_events_not_opened h bar _ _ e he
  | nil =>
      by_cases hdt : bar.date ∈ st.dates_traded
      · left
        intro e he
        simp [handlerStep, hps, hdt] at he
      · by_cases hlong : longBuyDecision h bar = true
        · right
          refine ⟨Or.inl ?_, rfl, hdt, ?_, Or.inl hlong⟩ <;>
            simp [handlerStep, hps, hdt, hlong]
        · by_cases hshort : shortBuyDecision h bar = true
          · right
            refine ⟨Or.inr ?_, rfl, hdt, ?_, Or.inr hshort⟩ <;>
              simp [handlerStep, hps, hdt, hlong, hshort]
          · left
            intro e he
            simp [handlerStep, hps, hdt, hlong, hshort] at he

theorem handlerStep_dates_mono (h : Handler) (u : String) (st : HandlerState)
    (bar : BarData) (x : Nat) (hx : x ∈ st.dates_traded) :
    x ∈ (handlerStep h u st bar).1.dates_traded := by
  cases hps : st.positions with
  | cons q qs =>
      simp only [handlerStep, hps, List.isEmpty_cons, Bool.false_eq_true, if_false]
      exact closeLoop_dates_mono h bar _ _ x hx
  | nil =>
      by_cases hdt : bar.date ∈ st.dates_traded
      · simpa [handlerStep, hps, hdt] using hx
      · by_cases hlong : longBuyDecision h bar = true
        · simp [handlerStep, hps, hdt, hlong]
          exact mem_addDate_of_mem _ _ _ hx
        · by_cases hshort : shortBuyDecision h bar = true
          · simp [handlerStep, hps, hdt, hlong, hshort]
            exact mem_addDate_of_mem _ _ _ hx
          · simpa [handlerStep, hps, hdt, hlong, hshort] using hx

theorem countOpens_singleton_opened (pt : PType) (dd : Nat) (pr : ℚ) (d : Nat) :
    countOpens [Event.opened pt dd pr] d = if dd = d then 1 else 0 := by
  by_cases hd : dd = d <;> simp [countOpens, isOpenedOn, List.filter, hd]

theorem handlerStep_countOpens_le (h : Handler) (u : String)
    (st : HandlerState) (bar : BarData) (d : Nat) :
    countOpens (handlerStep h u st bar).2 d ≤ 1 := by
  rcases handlerStep_events_cases h u st bar with hall | ⟨hev, _, _, _, _⟩
  · have : countOpens (handlerStep h u st bar).2 d = 0 := by
      unfold countOpens
      rw [List.length_eq_zero, List.filter_eq_nil_iff]
      intro e he
      rw [isOpenedOn_false_of_not_opened d e (hall e he)]
      simp
    omega
  · rcases hev with hev | hev <;> rw [hev, countOpens_singleton_opened] <;> split <;> omega

theorem handlerStep_countOpens_zero_of_mem (h : Handler) (u : String)
    (st : HandlerState) (bar : BarData) (d : Nat) (hd : d ∈ st.dates_traded) :
    countOpens (handlerStep h u st bar).2 d = 0 := by
  rcases handlerStep_events_cases h u st bar with hall | ⟨hev, _, hdt, _, _⟩
  · unfold countOpens
    rw [List.length_eq_zero, List.filter_eq_nil_iff]
    intro e he
    rw [isOpenedOn_false_of_not_opened d e (hall e he)]
    simp
  · rcases hev with hev | hev <;> rw [hev, countOpens_singleton_opened] <;>
      · split
        · next heq => exact absurd (heq ▸ hd) hdt
        · rfl

theorem handlerStep_mem_dates_of_opened (h : Handler) (u : String)
    (st : HandlerState) (bar : BarData) (d : Nat)
    (hc : 1 ≤ countOpens (handlerStep h u st bar).2 d) :
    d ∈ (handlerStep h u st bar).1.dates_traded := by
  rcases handlerStep_events_cases h u st bar with hall | ⟨hev, _, _, hadd, _⟩
  · exfalso
    have : countOpens (handlerStep h u st bar).2 d = 0 := by
      unfold countOpens
      rw [List.length_eq_zero, List.filter_eq_nil_iff]
      intro e he
      rw [isOpenedOn_false_of_not_opened d e (hall e he)]
      simp
    omega
  · have hdd : bar.date = d := by
      rcases hev with hev | hev <;> rw [hev, countOpens_singleton_opened] at hc <;>
        · revert hc
          split
          · next heq => intro _; exact heq
          · intro hc; omega
    rw [hadd, ← hdd]
    exact mem_addDate_self _ _

theorem runHandler_no_reopen (h : Handler) :
    ∀ (bars : List BarData) (st : HandlerState) (d : Nat),
      countOpens (runHandler h st bars).2 d ≤ 1 ∧
      (d ∈ st.dates_traded → countOpens (runHandler h st bars).2 d = 0) := by
  intro bars
  induction bars with
  | nil => intro st d; simp [runHandler, countOpens]
  | cons bar rest ih =>
      intro st d
      simp only [runHandler]
      rw [countOpens_append]
      constructor
      · rcases Nat.eq_zero_or_pos (countOpens (handlerStep h "" st bar).2 d) with h0 | h1
        · rw [h0]
          simpa using (ih (handlerStep h "" st bar).1 d).1
        · have hle := handlerStep_countOpens_le h "" st bar d
          have hmem := handlerStep_mem_dates_of_opened h "" st bar d h1
          have hz := (ih (handlerStep h "" st bar).1 d).2 hmem
          omega
      · intro hd
        have h1 := handlerStep_countOpens_zero_of_mem h "" st bar d hd
        have h2 := (ih (handlerStep h "" st bar).1 d).2
          (handlerStep_dates_mono h "" st bar d hd)
        omega

/-- C6 (confirmed): driving any bar sequence through the handler opens at
most one position per calendar date, and a position is opened on a bar only
when no position is open, no trade has yet occurred on that bar's date, and
one of the long/short entry conditions against the daily mean holds. -/
theorem at_most_one_open_per_day (h : Handler) (st : HandlerState)
    (bars : List BarData) (d : Nat) :
    countOpens (runHandler h st bars).2 d ≤ 1 ∧
    (∀ (u : String) (st' : HandlerState) (bar : BarData) (e : Event),
      e ∈ (handlerStep h u st' bar).2 → isOpened e = true →
      st'.positions = [] ∧ bar.date ∉ st'.dates_traded ∧
      (longBuyDecision h bar = true ∨ shortBuyDecision h bar = true)) := by
  constructor
  · exact (runHandler_no_reopen h bars st d).1
  · intro u st' bar e he hoe
    rcases handlerStep_events_cases h u st' bar with hall | ⟨_, hpos, hdt, _, hdec⟩
    · rw [hall e he] at hoe
      cases hoe
    · exact ⟨hpos, hdt, hdec⟩

/-- Witness for `at_most_one_open_per_day`: a two-bar day where the long
entry fires on the first bar, and a concrete opening step satisfying the
stated preconditions. -/
theorem at_most_one_open_per_day_witness :
    countOpens (runHandler exHandler ⟨[], []⟩ [exBarLongEntry, exBarLongEntry]).2 7 ≤ 1 ∧
    ((⟨[], []⟩ : HandlerState).positions = [] ∧
      exBarLongEntry.date ∉ (⟨[], []⟩ : HandlerState).dates_traded ∧
      (longBuyDecision exHandler exBarLongEntry = true ∨
        shortBuyDecision exHandler exBarLongEntry = true)) := by
  have hstep : (handlerStep exHandler "" (⟨[], []⟩ : HandlerState) exBarLongEntry).2 =
      [.opened .long 7 100] := by
    norm_num [handlerStep, longBuyDecision, shortBuyDecision, exHandler,
      exBarLongEntry, addDate]
  refine ⟨(at_most_one_open_per_day exHandler ⟨[], []⟩ [exBarLongEntry, exBarLongEntry] 7).1,
    (at_most_one_open_per_day exHandler ⟨[], []⟩ [exBarLongEntry, exBarLongEntry] 7).2
      "" ⟨[], []⟩ exBarLongEntry (.opened .long 7 100) ?_ rfl⟩
  rw [hstep]
  exact List.mem_cons_self _ _

/-! ## C8: lemmas on the dataset scan -/

theorem lookup_mem {y : Nat} {df : List DBar} :
    ∀ store : YearStore, store.lookup y = some df → (y, df) ∈ store := by
  intro store
  induction store with
  | nil => intro h; simp [List.lookup] at h
  | cons hd tl ih =>
      intro h
      rw [List.lookup] at h
      by_cases hb : y = hd.1
      · subst hb
        simp only [beq_self_eq_true] at h
        obtain rfl : hd.2 = df := by injection h
        exact List.mem_cons_self _ _
      · have hbeq : (y == hd.1) = false := by simp [hb]
        rw [hbeq] at h
        exact List.mem_cons_of_mem _ (ih h)

theorem openYearCsv_ok_lookup {store : YearStore} {y : Nat} {df : List DBar}
    (h : openYearCsv store y = .ok df) : store.lookup y = some df := by
  unfold openYearCsv at h
  cases hl : store.lookup y with
  | none => rw [hl] at h; cases h
  | some d => rw [hl] at h; injection h with h'; rw [h']

theorem openYearCsv_error_msg {store : YearStore} {y : Nat} {e : String}
    (h : openYearCsv store y = .error e) : e = "No data available for year" := by
  unfold openYearCsv at h
  cases hl : store.lookup y with
  | none => rw [hl] at h; injection h with h'; rw [h']
  | some d => rw [hl] at h; cases h

theorem mem_dropDupFirstBy :
    ∀ (l : List DBar) (seen : List Dt) (z : DBar),
      z ∈ dropDupFirstBy l seen → z ∈ l := by
  intro l
  induction l with
  | nil => intro seen z hz; simp [dropDupFirstBy] at hz
  | cons b rest ih =>
      intro seen z hz
      unfold dropDupFirstBy at hz
      by_cases hb : b.datetime ∈ seen
      · rw [if_pos hb] at hz
        exact List.mem_cons_of_mem _ (ih _ z hz)
      · rw [if_neg hb] at hz
        rcases List.mem_cons.mp hz with h | h
        · exact h ▸ List.mem_cons_self _ _
        · exact List.mem_cons_of_mem _ (ih _ z h)

theorem mem_appendYear_df (ds : Dataset) (y : Nat) (df : List DBar) (z : DBar)
    (hz : z ∈ (appendYear ds y df).df) : z ∈ ds.df ∨ z ∈ df := by
  simp only [appendYear, sortByDt] at hz
  rw [List.mem_insertionSort] at hz
  have := mem_dropDupFirstBy _ _ _ hz
  simpa using this

/-- C8 (counterexample): the claim promises a `NoDataAvailable` failure
whenever no bar within the configurable maximum lookahead matches; the code
has no lookahead parameter at all — on a series whose first (and only) bar
within a lookahead of 1 does not match, the spec-modelled bounded scan
fails with `NoDataAvailable` while `jump_to_condition` keeps loading year
files and returns the matching bar of the following year. -/
theorem jump_to_condition_has_no_lookahead_bound :
    findFirstMatchingSpec [ex8Bar1, ex8Bar2] (matchesAny ex8Conds) 1 =
      .error "NoDataAvailable" ∧
    jumpToCondition ex8Store ex8Conds ex8Ds = .ok ⟨[ex8Bar2], 2001⟩ := by
  constructor
  · rfl
  · have step1 : jumpToCondition ex8Store ex8Conds ex8Ds =
        jumpToCondition ex8Store ex8Conds (appendYear ex8Ds 2001 [ex8Bar2]) := by
      conv_lhs => rw [jumpToCondition]
      rfl
    have step2 : jumpToCondition ex8Store ex8Conds (appendYear ex8Ds 2001 [ex8Bar2]) =
        .ok ⟨[ex8Bar2], 2001⟩ := by
      conv_lhs => rw [jumpToCondition]
      rfl
    exact step1.trans step2

/-- C8 (amended): `jump_to_condition` has no configurable lookahead; its
scan is bounded by the yearly files on disk: whenever no loaded bar and no
bar of any stored year satisfies the conditions, the loop terminates by
attempting to load a missing year and fails with the
`FileNotFoundError`-based no-data failure instead of scanning forever. -/
theorem jump_to_condition_exhausts_files (store : YearStore) (conds : List Cond)
    (ds : Dataset)
    (hds : ∀ b ∈ ds.df, matchesAny conds b = false)
    (hstore : ∀ yd ∈ store, ∀ b ∈ yd.2, matchesAny conds b = false) :
    jumpToCondition store conds ds = .error "No data available for year" := by
  induction ds using jumpToCondition.induct store conds with
  | case1 x r tail hfil =>
      exfalso
      have hr : r ∈ List.filter (matchesAny conds) x.df := by
        rw [hfil]; exact List.mem_cons_self _ _
      rw [List.mem_filter] at hr
      have := hds r hr.1
      rw [this] at hr
      exact absurd hr.2 (by simp)
  | case2 x hfil e hcsv =>
      rw [jumpToCondition]
      rw [hfil]
      split
      · next r tail heq => cases heq
      · next heq =>
          split
          · next e' heq2 =>
              rw [openYearCsv_error_msg heq2]
          · next df' heq2 =>
              rw [hcsv] at heq2
              cases heq2
  | case3 x hfil df hcsv ih =>
      have hnew : ∀ b ∈ (appendYear x (x.year + 1) df).df,
          matchesAny conds b = false := by
        intro b hb
        rcases mem_appendYear_df _ _ _ _ hb with h1 | h1
        · exact hds b h1
        · exact hstore _ (lookup_mem store (openYearCsv_ok_lookup hcsv)) b h1
      have hrec := ih hnew
      rw [jumpToCondition]
      rw [hfil]
      split
      · next r tail heq => cases heq
      · next heq =>
          split
          · next e' heq2 =>
              rw [hcsv] at heq2
              cases heq2
          · next df' heq2 =>
              rw [hcsv] at heq2
              injection heq2 with h'
              rw [← h']
              exact hrec

/-- Witness for `jump_to_condition_exhausts_files`: the single-year store
whose only bar fails the condition `close > 3`. -/
theorem jump_to_condition_exhausts_files_witness :
    jumpToCondition ex8NoMatchStore ex8Conds ex8Ds =
      .error "No data available for year" :=
  jump_to_condition_exhausts_files ex8NoMatchStore ex8Conds ex8Ds
    (by decide) (by decide)

/-! ## C9: lemmas on the de-duplication -/

theorem keyLe_refl (a : Row) : keyLe a a :=
  Or.inr ⟨rfl, Or.inr ⟨rfl, le_refl _⟩⟩

theorem keyLe_datetime_le {a b : Row} (h : keyLe a b) :
    a.datetime ≤ b.datetime := by
  rcases h with h | ⟨h, _⟩
  · exact Nat.le_of_lt h
  · exact Nat.le_of_eq h

theorem keyLe_antisymm_key {a b : Row} (h1 : keyLe a b) (h2 : keyLe b a) :
    rowKey a = rowKey b := by
  unfold keyLe at h1 h2
  rcases h1 with h1 | ⟨h1, h1'⟩
  · rcases h2 with h2 | ⟨h2, h2'⟩ <;> (exfalso; omega)
  · rcases h2 with h2 | ⟨h2, h2'⟩
    · exfalso; omega
    · rcases h1' with h3 | ⟨h3, h3'⟩
      · rcases h2' with h4 | ⟨h4, h4'⟩ <;> (exfalso; omega)
      · rcases h2' with h4 | ⟨h4, h4'⟩
        · exfalso; omega
        · simp only [rowKey, Prod.mk.injEq]
          exact ⟨h1, h3, le_antisymm h3' h4'⟩

theorem sorted_perm_eq_of_inj :
    ∀ (l₁ l₂ : List Row), l₁.Perm l₂ → List.Sorted keyLe l₁ →
      List.Sorted keyLe l₂ →
      (∀ a ∈ l₁, ∀ b ∈ l₁, rowKey a = rowKey b → a = b) → l₁ = l₂ := by
  intro l₁
  induction l₁ with
  | nil =>
      intro l₂ hp _ _ _
      exact (List.Perm.eq_nil hp.symm).symm
  | cons a t₁ ih =>
      intro l₂ hp hs₁ hs₂ hinj
      cases l₂ with
      | nil =>
          have := hp.length_eq
          simp at this
      | cons b t₂ =>
          have hab : a = b := by
            have ha2 : a ∈ b :: t₂ := hp.mem_iff.mp (List.mem_cons_self _ _)
            have hb1 : b ∈ a :: t₁ := hp.mem_iff.mpr (List.mem_cons_self _ _)
            rcases List.mem_cons.mp ha2 with h | h
            · exact h
            rcases List.mem_cons.mp hb1 with h' | h'
            · exact h'.symm
            have hba : keyLe b a := List.rel_of_sorted_cons hs₂ a h
            have hab' : keyLe a b := List.rel_of_sorted_cons hs₁ b h'
            exact hinj a (List.mem_cons_self _ _) b (List.mem_cons_of_mem _ h')
              (keyLe_antisymm_key hab' hba)
          subst hab
          have hpt : t₁.Perm t₂ := hp.cons_inv
          have hrec := ih t₂ hpt hs₁.of_cons hs₂.of_cons
            (fun x hx y hy hk =>
              hinj x (List.mem_cons_of_mem _ hx) y (List.mem_cons_of_mem _ hy) hk)
          rw [hrec]

theorem sortRows_perm (l : List Row) : (sortRows l).Perm l :=
  List.perm_insertionSort _ _

theorem sortRows_sorted (l : List Row) : List.Sorted keyLe (sortRows l) :=
  List.sorted_insertionSort _ _

theorem mem_dropDupKeepLast :
    ∀ (l : List Row) (z : Row), z ∈ dropDupKeepLast l → z ∈ l := by
  intro l
  induction l with
  | nil => intro z hz; simp [dropDupKeepLast] at hz
  | cons x tail ih =>
      cases tail with
      | nil => intro z hz; simpa [dropDupKeepLast] using hz
      | cons y rest =>
          intro z hz
          unfold dropDupKeepLast at hz
          by_cases hdt : x.datetime = y.datetime
          · rw [if_pos hdt] at hz
            exact List.mem_cons_of_mem _ (ih z hz)
          · rw [if_neg hdt] at hz
            rcases List.mem_cons.mp hz with h | h
            · exact h ▸ List.mem_cons_self _ _
            · exact List.mem_cons_of_mem _ (ih z h)

theorem dropDup_sorted_lt :
    ∀ l : List Row, List.Sorted keyLe l →
      List.Pairwise (fun a b : Row => a.datetime < b.datetime)
        (dropDupKeepLast l) := by
  intro l
  induction l with
  | nil => intro _; simp [dropDupKeepLast]
  | cons x tail ih =>
      intro hs
      cases tail with
      | nil => simp [dropDupKeepLast]
      | cons y rest =>
          unfold dropDupKeepLast
          by_cases hdt : x.datetime = y.datetime
          · rw [if_pos hdt]
            exact ih hs.of_cons
          · rw [if_neg hdt]
            refine List.pairwise_cons.mpr ⟨?_, ih hs.of_cons⟩
            intro z hz
            have hzmem : z ∈ y :: rest := mem_dropDupKeepLast _ z hz
            have hxy : keyLe x y :=
              (List.sorted_cons.mp hs).1 y (List.mem_cons_self _ _)
            have hxydt : x.datetime < y.datetime :=
              lt_of_le_of_ne (keyLe_datetime_le hxy) hdt
            have hyz : y.datetime ≤ z.datetime := by
              rcases List.mem_cons.mp hzmem with h | h
              · exact h ▸ le_refl _
              · exact keyLe_datetime_le ((List.sorted_cons.mp hs.of_cons).1 z h)
            omega

theorem dropDup_key_max :
    ∀ l : List Row, List.Sorted keyLe l →
      ∀ z ∈ l, ∀ w ∈ dropDupKeepLast l, z.datetime = w.datetime → keyLe z w := by
  intro l
  induction l with
  | nil => intro _ z hz; simp at hz
  | cons x tail ih =>
      intro hs z hz w hw hdt
      cases tail with
      | nil =>
          have hwx : w = x := by simpa [dropDupKeepLast] using hw
          have hzx : z = x := by simpa using hz
          subst hwx
          subst hzx
          exact keyLe_refl _
      | cons y rest =>
          unfold dropDupKeepLast at hw
          by_cases hd : x.datetime = y.datetime
          · rw [if_pos hd] at hw
            rcases List.mem_cons.mp hz with hzx | hzt
            · subst hzx
              exact (List.sorted_cons.mp hs).1 w (mem_dropDupKeepLast _ _ hw)
            · exact ih hs.of_cons z hzt w hw hdt
          · rw [if_neg hd] at hw
            have hxy : keyLe x y :=
              (List.sorted_cons.mp hs).1 y (List.mem_cons_self _ _)
            have h1 : x.datetime < y.datetime :=
              lt_of_le_of_ne (keyLe_datetime_le hxy) hd
            rcases List.mem_cons.mp hw with hwx | hwt
            · subst hwx
              rcases List.mem_cons.mp hz with hzx | hzt
              · subst hzx; exact keyLe_refl _
              · have h2 : w.datetime ≤ z.datetime := by
                  rcases List.mem_cons.mp hzt with h | h
                  · exact h ▸ Nat.le_of_lt h1
                  · exact le_trans (Nat.le_of_lt h1)
                      (keyLe_datetime_le ((List.sorted_cons.mp hs.of_cons).1 z h))
                exfalso
                rcases List.mem_cons.mp hzt with h | h
                · have : y.datetime = w.datetime := h ▸ hdt
                  omega
                · have h3 : y.datetime ≤ z.datetime :=
                    keyLe_datetime_le ((List.sorted_cons.mp hs.of_cons).1 z h)
                  omega
            · rcases List.mem_cons.mp hz with hzx | hzt
              · subst hzx
                have hwm : w ∈ y :: rest := mem_dropDupKeepLast _ _ hwt
                have h2 : y.datetime ≤ w.datetime := by
                  rcases List.mem_cons.mp hwm with h | h
                  · exact h ▸ le_refl _
                  · exact keyLe_datetime_le ((List.sorted_cons.mp hs.of_cons).1 w h)
                exact absurd hdt (by omega)
              · exact ih hs.of_cons z hzt w hwt hdt

/-- C9 (counterexample): two observations for one timestamp, neither
carrying a `request_time`: the code keeps the LAST-loaded one — not the
first-loaded as claimed — and loading the same two rows in the opposite
order keeps the other row, so the de-duplicated series depends on load
order under full key ties. -/
theorem dedupe_keeps_last_loaded_on_ties :
    dedupe_by_request_time [exRowA, exRowB] = [fillRequestTime exRowB] ∧
    dedupe_by_request_time [exRowB, exRowA] = [fillRequestTime exRowA] ∧
    fillRequestTime exRowA ≠ fillRequestTime exRowB ∧
    dedupe_by_request_time [exRowA, exRowB] ≠
      dedupe_by_request_time [exRowB, exRowA] := by
  refine ⟨by decide, by decide, by decide, by decide⟩

/-- C9 (amended): the de-duplication keeps exactly one row per timestamp —
one maximal in the `(request_time, volume)` sort key among that timestamp's
observations (so the most recently fetched by `request_time` when one is
strictly latest); and loading the same rows in any order yields the
identical series provided no two observations share a full
`(timestamp, request_time, volume)` key (under full ties the last-loaded
row wins, so order matters there). -/
theorem dedupe_one_max_row_per_timestamp (rows rows' : List Row) :
    ((dedupe_by_request_time rows).map (fun r => r.datetime)).Nodup ∧
    (∀ w ∈ dedupe_by_request_time rows, ∀ z ∈ rows,
      (fillRequestTime z).datetime = w.datetime → keyLe (fillRequestTime z) w) ∧
    (rows.Perm rows' →
      (∀ a ∈ rows.map fillRequestTime, ∀ b ∈ rows.map fillRequestTime,
        rowKey a = rowKey b → a = b) →
      dedupe_by_request_time rows = dedupe_by_request_time rows') := by
  refine ⟨?_, ?_, ?_⟩
  · have h1 := dropDup_sorted_lt _ (sortRows_sorted (rows.map fillRequestTime))
    exact List.pairwise_map.mpr (h1.imp fun h => Nat.ne_of_lt h)
  · intro w hw z hz hdt
    have hzs : fillRequestTime z ∈ sortRows (rows.map fillRequestTime) :=
      (sortRows_perm _).mem_iff.mpr (List.mem_map_of_mem _ hz)
    exact dropDup_key_max _ (sortRows_sorted _) _ hzs w hw hdt
  · intro hp hinj
    unfold dedupe_by_request_time
    refine congrArg dropDupKeepLast ?_
    refine sorted_perm_eq_of_inj _ _ ?_ (sortRows_sorted _) (sortRows_sorted _) ?_
    · exact (sortRows_perm _).trans ((hp.map fillRequestTime).trans
        (sortRows_perm _).symm)
    · intro a ha b hb hk
      exact hinj a ((sortRows_perm _).mem_iff.mp ha)
        b ((sortRows_perm _).mem_iff.mp hb) hk

/-- Witness for `dedupe_one_max_row_per_timestamp` on concrete rows with
pairwise distinct keys, reloaded in a different order. -/
theorem dedupe_one_max_row_per_timestamp_witness :
    ((dedupe_by_request_time exRowsUnique).map (fun r => r.datetime)).Nodup ∧
    (∀ w ∈ dedupe_by_request_time exRowsUnique, ∀ z ∈ exRowsUnique,
      (fillRequestTime z).datetime = w.datetime → keyLe (fillRequestTime z) w) ∧
    dedupe_by_request_time exRowsUnique = dedupe_by_request_time exRowsUniquePerm :=
  ⟨(dedupe_one_max_row_per_timestamp exRowsUnique exRowsUniquePerm).1,
   (dedupe_one_max_row_per_timestamp exRowsUnique exRowsUniquePerm).2.1,
   (dedupe_one_max_row_per_timestamp exRowsUnique exRowsUniquePerm).2.2
     (by decide) (by decide)⟩

end Thales
